import Mathlib

/-!
Verification of the glyph-run preparation core of `src/core/SkGlyphRun.cpp`:
the `SkGlyphIDSet` sparse-set deduplicator (Briggs–Torczon) and the
`SkGlyphRunBuilder` pipeline (`drawText`, `drawPosTextH`, `drawPosText`).

Embedding conventions:
* machine integers (`SkGlyphID` = `uint16_t`, `uint32_t`, `size_t`) are
  modelled as `Nat`; the one narrowing in the source, `SkTo<uint16_t>(uniqueSize)`,
  is a checked cast that is the identity in every reachable state (`uniqueSize`
  never exceeds the count of distinct 16-bit ids already inserted);
* `SkScalar` coordinates are modelled as rationals, `SkPoint` as `ℚ × ℚ`;
* raw buffers are modelled as lists; the sparse set's `fUniverseToUnique`
  buffer carries an explicit `inBounds` flag recording whether every access
  the loop performed was inside the allocation (the C++ access is undefined
  behaviour otherwise);
* the external collaborators (typeface, strike cache, UTF decoding) are
  explicit parameters/oracles, mirroring §2 of the specification.
-/

/-- The reserved undefined-glyph id, `kUndefGlyph{0}` in
`SkGlyphIDSet::uniquifyGlyphIDs`. -/
def kUndefGlyph : Nat := 0

/-- The out-of-range remap at the top of the `uniquifyGlyphIDs` loop
(lines 106-108): an id at or above the universe size becomes the undefined
glyph. -/
def remapGlyph (universeSize glyphID : Nat) : Nat :=
  if glyphID ≥ universeSize then kUndefGlyph else glyphID

/-- Loop state of `SkGlyphIDSet::uniquifyGlyphIDs`: `map` is the contents of
the `fUniverseToUnique` buffer, `uniq` the prefix of the caller's
`uniqueGlyphIDs` buffer written so far (its length is the running
`uniqueSize`), `dense` the `denseIndices` entries written so far, and
`inBounds` records that every `fUniverseToUnique` access so far was inside
the allocation. -/
structure UniquifyAcc where
  map : List Nat
  uniq : List Nat
  dense : List Nat
  inBounds : Bool
deriving Repr, DecidableEq

/-- One iteration of the `for (auto glyphID : glyphIDs)` loop of
`SkGlyphIDSet::uniquifyGlyphIDs` (lines 103-121).  The buffer read
`uniqueGlyphIDs[uniqueIndex]` happens (short-circuit `||`) only when
`uniqueIndex < uniqueSize`, i.e. inside the prefix written this call, so
`getD` with default `0` never supplies its default on the path the C++
takes. -/
def uniquifyStep (universeSize : Nat) (acc : UniquifyAcc) (glyphID0 : Nat) :
    UniquifyAcc :=
  let glyphID := remapGlyph universeSize glyphID0
  let uniqueIndex := acc.map.getD glyphID 0
  let ib := acc.inBounds && decide (glyphID < acc.map.length)
  if uniqueIndex ≥ acc.uniq.length ∨ acc.uniq.getD uniqueIndex 0 ≠ glyphID then
    { map := acc.map.set glyphID acc.uniq.length
      uniq := acc.uniq ++ [glyphID]
      dense := acc.dense ++ [acc.uniq.length]
      inBounds := ib }
  else
    { acc with dense := acc.dense ++ [uniqueIndex], inBounds := ib }

/-- The whole `for` loop of `uniquifyGlyphIDs`, started on map contents
`m0` with `uniqueSize = 0` and an empty `denseIndices` prefix. -/
def uniquifyLoop (universeSize : Nat) (m0 : List Nat) (glyphIDs : List Nat) :
    UniquifyAcc :=
  glyphIDs.foldl (uniquifyStep universeSize)
    { map := m0, uniq := [], dense := [], inBounds := true }

/-- `SkGlyphIDSet`: the reusable sparse-set deduplicator.  Its one piece of
state is the `fUniverseToUnique` buffer; `fUniverseToUniqueSize` is the
buffer's length. -/
structure SkGlyphIDSet where
  universeToUnique : List Nat
deriving Repr, DecidableEq

/-- Modelled from the spec: a freshly constructed `SkGlyphIDSet` (the class
declaration with its member initializers lives in `SkGlyphRun.h`, which is
not among the repository's files).  Per the spec's data model the backing
map's "size is the largest universe size requested so far", so a fresh
instance holds no entries. -/
def SkGlyphIDSet.fresh : SkGlyphIDSet := ⟨[]⟩

/-- The grow step of `uniquifyGlyphIDs` (lines 88-96): when a larger
universe is requested the buffer is reallocated to `universeSize` entries
and zero-filled (`sk_bzero`); otherwise the old contents - including stale
entries of earlier calls - are kept. -/
def SkGlyphIDSet.grownMap (s : SkGlyphIDSet) (universeSize : Nat) : List Nat :=
  if universeSize > s.universeToUnique.length then List.replicate universeSize 0
  else s.universeToUnique

/-- What one `uniquifyGlyphIDs` call hands back to the caller: the written
prefix of the caller's `uniqueGlyphIDs` buffer (the returned span), the
`denseIndices` entries written (one per input occurrence), and whether every
map access stayed inside the allocation. -/
structure UniquifyResult where
  uniqueGlyphIDs : List Nat
  denseIndices : List Nat
  inBounds : Bool
deriving Repr, DecidableEq

/-- `SkGlyphIDSet::uniquifyGlyphIDs` (lines 81-132): grow-and-zero if the
universe outgrew the buffer, run the dedup loop, then shrink the buffer
back to the 4096-entry ceiling (zero-filled) if it exceeds it.  Returns
the call's result paired with the instance's state after the call. -/
def SkGlyphIDSet.uniquifyGlyphIDs (s : SkGlyphIDSet) (universeSize : Nat)
    (glyphIDs : List Nat) : UniquifyResult × SkGlyphIDSet :=
  let acc := uniquifyLoop universeSize (s.grownMap universeSize) glyphIDs
  let map1 := if acc.map.length > 4096 then List.replicate 4096 0 else acc.map
  (⟨acc.uniq, acc.dense, acc.inBounds⟩, ⟨map1⟩)

/-- The distinct elements of a list in order of first occurrence: the order
in which the dedup loop appends new unique ids. -/
def firstOccur (l : List Nat) : List Nat :=
  l.foldl (fun acc g => if g ∈ acc then acc else acc ++ [g]) []

theorem remapGlyph_lt (U g : Nat) (hU : 1 ≤ U) : remapGlyph U g < U := by
  simp only [remapGlyph, kUndefGlyph]
  split <;> omega

theorem grownMap_length (s : SkGlyphIDSet) (U : Nat) :
    U ≤ (s.grownMap U).length := by
  simp only [SkGlyphIDSet.grownMap]
  split
  · simp
  · omega

theorem firstOccur_concat (l : List Nat) (g : Nat) :
    firstOccur (l ++ [g]) =
      if g ∈ firstOccur l then firstOccur l else firstOccur l ++ [g] := by
  simp [firstOccur, List.foldl_append]

theorem mem_firstOccur (l : List Nat) : ∀ a : Nat, a ∈ firstOccur l ↔ a ∈ l := by
  induction l using List.reverseRecOn with
  | nil => intro a; simp [firstOccur]
  | append_singleton xs x ih =>
    intro a
    rw [firstOccur_concat]
    by_cases hx : x ∈ firstOccur xs
    · rw [if_pos hx, ih a]
      have hx' : x ∈ xs := (ih x).mp hx
      simp only [List.mem_append, List.mem_singleton]
      constructor
      · exact Or.inl
      · rintro (h | rfl)
        · exact h
        · exact hx'
    · rw [if_neg hx]
      simp [ih a]

theorem nodup_firstOccur (l : List Nat) : (firstOccur l).Nodup := by
  induction l using List.reverseRecOn with
  | nil => simp [firstOccur]
  | append_singleton xs x ih =>
    rw [firstOccur_concat]
    by_cases hx : x ∈ firstOccur xs
    · rw [if_pos hx]; exact ih
    · rw [if_neg hx]
      refine ih.append (List.nodup_singleton x) ?_
      intro a ha hb
      rw [List.mem_singleton] at hb
      subst hb
      exact hx ha

theorem length_firstOccur_le (l : List Nat) :
    (firstOccur l).length ≤ l.length := by
  induction l using List.reverseRecOn with
  | nil => simp [firstOccur]
  | append_singleton xs x ih =>
    rw [firstOccur_concat]
    by_cases hx : x ∈ firstOccur xs
    · rw [if_pos hx]; simp only [List.length_append, List.length_singleton]; omega
    · rw [if_neg hx]; simp only [List.length_append, List.length_singleton]; omega

theorem getD_indexOf_self {l : List Nat} {a : Nat} (h : a ∈ l) :
    l.getD (l.indexOf a) 0 = a := by
  rw [List.getD_eq_getElem l 0 (List.indexOf_lt_length.mpr h)]
  exact List.getElem_indexOf _

/-- The loop invariant of `uniquifyGlyphIDs`, proved for an arbitrary
starting buffer `m0` (all-zero after a grow, or holding stale entries of an
earlier call): as long as every remapped id is inside the buffer, the loop's
outputs are exactly the first-occurrence dedup of the remapped input - the
buffer's starting contents are semantically irrelevant, which is what makes
skipping the O(universe) clear sound. -/
theorem uniquifyLoop_spec (U : Nat) (m0 : List Nat)
    (hm : ∀ g : Nat, remapGlyph U g < m0.length) :
    ∀ glyphIDs : List Nat,
      (uniquifyLoop U m0 glyphIDs).uniq
          = firstOccur (glyphIDs.map (remapGlyph U)) ∧
      (uniquifyLoop U m0 glyphIDs).dense
          = (glyphIDs.map (remapGlyph U)).map
              (fun g => (firstOccur (glyphIDs.map (remapGlyph U))).indexOf g) ∧
      (uniquifyLoop U m0 glyphIDs).map.length = m0.length ∧
      (∀ g ∈ firstOccur (glyphIDs.map (remapGlyph U)),
        (uniquifyLoop U m0 glyphIDs).map.getD g 0
          = (firstOccur (glyphIDs.map (remapGlyph U))).indexOf g) ∧
      (uniquifyLoop U m0 glyphIDs).inBounds = true := by
  intro glyphIDs
  induction glyphIDs using List.reverseRecOn with
  | nil =>
    refine ⟨rfl, rfl, rfl, ?_, rfl⟩
    intro g hg
    simp [firstOccur] at hg
  | append_singleton gs g0 ih =>
    obtain ⟨ihu, ihd, ihl, ihm2, ihb⟩ := ih
    have hstep : uniquifyLoop U m0 (gs ++ [g0])
        = uniquifyStep U (uniquifyLoop U m0 gs) g0 := by
      simp [uniquifyLoop, List.foldl_append]
    have hmap : (gs ++ [g0]).map (remapGlyph U)
        = gs.map (remapGlyph U) ++ [remapGlyph U g0] := by simp
    rw [hstep, hmap]
    set acc := uniquifyLoop U m0 gs
    set q := gs.map (remapGlyph U)
    set r := remapGlyph U g0 with hr
    have hrlen : r < acc.map.length := by rw [ihl, hr]; exact hm g0
    have hqlen : ∀ g ∈ q, g < acc.map.length := by
      intro g hg
      rw [ihl]
      obtain ⟨a, _, rfl⟩ := List.mem_map.mp hg
      exact hm a
    by_cases hgm : r ∈ firstOccur q
    · -- the id was already inserted this call: the double-check passes and
      -- the existing dense index is reused
      have hidx : acc.map.getD r 0 = (firstOccur q).indexOf r := ihm2 r hgm
      have hlt : (firstOccur q).indexOf r < (firstOccur q).length :=
        List.indexOf_lt_length.mpr hgm
      have hget : acc.uniq.getD (acc.map.getD r 0) 0 = r := by
        rw [hidx, ihu]; exact getD_indexOf_self hgm
      have hcond : ¬(acc.map.getD r 0 ≥ acc.uniq.length ∨
          acc.uniq.getD (acc.map.getD r 0) 0 ≠ r) := by
        push_neg
        refine ⟨?_, hget⟩
        rw [hidx, ihu]
        exact hlt
      have hres : uniquifyStep U acc g0 =
          { acc with dense := acc.dense ++ [acc.map.getD r 0],
                     inBounds := acc.inBounds && decide (r < acc.map.length) } := by
        simp only [uniquifyStep, ← hr]
        rw [if_neg hcond]
      rw [hres, firstOccur_concat, if_pos hgm]
      refine ⟨ihu, ?_, ihl, ihm2, ?_⟩
      · rw [List.map_append, ← ihd, hidx]
        simp
      · simp [ihb, hrlen]
    · -- a new id: the candidate read from the buffer (possibly stale) fails
      -- the double-check, so the id is appended with the next dense index
      have hru : r ∉ acc.uniq := by rw [ihu]; exact hgm
      have hcond : acc.map.getD r 0 ≥ acc.uniq.length ∨
          acc.uniq.getD (acc.map.getD r 0) 0 ≠ r := by
        by_cases hv : acc.map.getD r 0 < acc.uniq.length
        · right
          intro heq
          apply hru
          rw [← heq, List.getD_eq_getElem _ _ hv]
          exact List.getElem_mem hv
        · left; omega
      have hres : uniquifyStep U acc g0 =
          { map := acc.map.set r acc.uniq.length
            uniq := acc.uniq ++ [r]
            dense := acc.dense ++ [acc.uniq.length]
            inBounds := acc.inBounds && decide (r < acc.map.length) } := by
        simp only [uniquifyStep, ← hr]
        rw [if_pos hcond]
      have hfo : firstOccur (q ++ [r]) = firstOccur q ++ [r] := by
        rw [firstOccur_concat, if_neg hgm]
      have hidxr : (firstOccur q ++ [r]).indexOf r = (firstOccur q).length := by
        rw [List.indexOf_append_of_not_mem hgm, List.indexOf_cons_self]
        omega
      rw [hres, hfo]
      refine ⟨?_, ?_, ?_, ?_, ?_⟩
      · show acc.uniq ++ [r] = firstOccur q ++ [r]
        rw [ihu]
      · show acc.dense ++ [acc.uniq.length]
            = (q ++ [r]).map (fun g => (firstOccur q ++ [r]).indexOf g)
        rw [List.map_append, ihd]
        congr 1
        · exact List.map_congr_left fun g hg =>
            (List.indexOf_append_of_mem ((mem_firstOccur q g).mpr hg)).symm
        · simp only [List.map_cons, List.map_nil, hidxr]
          rw [ihu]
      · show (acc.map.set r acc.uniq.length).length = m0.length
        rw [List.length_set]; exact ihl
      · intro g hg
        show (acc.map.set r acc.uniq.length).getD g 0
            = (firstOccur q ++ [r]).indexOf g
        rcases List.mem_append.mp hg with hgF | hgr
        · have hne : r ≠ g := fun h => hgm (h ▸ hgF)
          have hglen : g < acc.map.length :=
            hqlen g ((mem_firstOccur q g).mp hgF)
          have hglen' : g < (acc.map.set r acc.uniq.length).length := by
            rw [List.length_set]; exact hglen
          rw [List.getD_eq_getElem _ _ hglen', List.getElem_set_ne hne,
            ← List.getD_eq_getElem acc.map 0 hglen, ihm2 g hgF,
            List.indexOf_append_of_mem hgF]
        · rw [List.mem_singleton] at hgr
          subst hgr
          have hglen' : r < (acc.map.set r acc.uniq.length).length := by
            rw [List.length_set]; exact hrlen
          rw [List.getD_eq_getElem _ _ hglen', List.getElem_set_self, hidxr, ihu]
      · show (acc.inBounds && decide (r < acc.map.length)) = true
        simp [ihb, hrlen]

theorem remapGlyph_eq_ite (U g : Nat) :
    remapGlyph U g = if g < U then g else kUndefGlyph := by
  simp only [remapGlyph, kUndefGlyph]
  split <;> split <;> omega

theorem remapGlyph_lt_grownMap (s : SkGlyphIDSet) (U : Nat) (hU : 1 ≤ U) (g : Nat) :
    remapGlyph U g < (s.grownMap U).length :=
  lt_of_lt_of_le (remapGlyph_lt U g hU) (grownMap_length s U)

/-- The result components of one `uniquifyGlyphIDs` call, read off the loop
invariant. -/
theorem uniquifyGlyphIDs_eq (s : SkGlyphIDSet) (U : Nat) (gs : List Nat)
    (hm : ∀ g : Nat, remapGlyph U g < (s.grownMap U).length) :
    (s.uniquifyGlyphIDs U gs).1.uniqueGlyphIDs
        = firstOccur (gs.map (remapGlyph U)) ∧
    (s.uniquifyGlyphIDs U gs).1.denseIndices
        = (gs.map (remapGlyph U)).map
            (fun g => (firstOccur (gs.map (remapGlyph U))).indexOf g) ∧
    (s.uniquifyGlyphIDs U gs).1.inBounds = true := by
  have h := uniquifyLoop_spec U (s.grownMap U) hm gs
  exact ⟨h.1, h.2.1, h.2.2.2.2⟩

/-- Each written dense index is the first-occurrence index of the occurrence's
remapped id. -/
theorem denseIndices_getD (s : SkGlyphIDSet) (U : Nat) (gs : List Nat) (hU : 1 ≤ U)
    (i : Nat) (hi : i < gs.length) :
    (s.uniquifyGlyphIDs U gs).1.denseIndices.getD i 0
      = (firstOccur (gs.map (remapGlyph U))).indexOf (remapGlyph U (gs.getD i 0)) := by
  obtain ⟨hu, hd, hb⟩ := uniquifyGlyphIDs_eq s U gs (remapGlyph_lt_grownMap s U hU)
  have hdi : i < ((gs.map (remapGlyph U)).map
      (fun g => (firstOccur (gs.map (remapGlyph U))).indexOf g)).length := by
    simpa using hi
  rw [hd, List.getD_eq_getElem _ _ hdi, List.getElem_map, List.getElem_map,
    List.getD_eq_getElem _ _ hi]

/-- C1: for every input id sequence and universe size `U ≥ 1` (the caller's
output buffers are lists here, so the capacity precondition of the C++
interface is intrinsic), `uniquifyGlyphIDs` returns a duplicate-free
`uniqueGlyphIDs` of length at most the input length, writes exactly one
in-range dense index per input occurrence, the unique id each dense index
points at is the input id when it is below the universe size and the
reserved undefined-glyph id `0` otherwise, and occurrences with equal
remapped ids (in particular, all out-of-range ids and id `0`) share one
dense index. -/
theorem uniquifyGlyphIDs_dedup_correct (s : SkGlyphIDSet) (universeSize : Nat)
    (glyphIDs : List Nat) (hU : 1 ≤ universeSize) :
    ((s.uniquifyGlyphIDs universeSize glyphIDs).1.uniqueGlyphIDs).Nodup ∧
    (s.uniquifyGlyphIDs universeSize glyphIDs).1.uniqueGlyphIDs.length
        ≤ glyphIDs.length ∧
    (s.uniquifyGlyphIDs universeSize glyphIDs).1.denseIndices.length
        = glyphIDs.length ∧
    (∀ i, i < glyphIDs.length →
      (s.uniquifyGlyphIDs universeSize glyphIDs).1.denseIndices.getD i 0
          < (s.uniquifyGlyphIDs universeSize glyphIDs).1.uniqueGlyphIDs.length ∧
      (s.uniquifyGlyphIDs universeSize glyphIDs).1.uniqueGlyphIDs.getD
          ((s.uniquifyGlyphIDs universeSize glyphIDs).1.denseIndices.getD i 0) 0
        = (if glyphIDs.getD i 0 < universeSize then glyphIDs.getD i 0
           else kUndefGlyph)) ∧
    (∀ i j, i < glyphIDs.length → j < glyphIDs.length →
      remapGlyph universeSize (glyphIDs.getD i 0)
          = remapGlyph universeSize (glyphIDs.getD j 0) →
      (s.uniquifyGlyphIDs universeSize glyphIDs).1.denseIndices.getD i 0
        = (s.uniquifyGlyphIDs universeSize glyphIDs).1.denseIndices.getD j 0) := by
  obtain ⟨hu, hd, hb⟩ := uniquifyGlyphIDs_eq s universeSize glyphIDs
      (remapGlyph_lt_grownMap s universeSize hU)
  refine ⟨?_, ?_, ?_, ?_, ?_⟩
  · rw [hu]; exact nodup_firstOccur _
  · rw [hu]
    calc (firstOccur (glyphIDs.map (remapGlyph universeSize))).length
        ≤ (glyphIDs.map (remapGlyph universeSize)).length :=
          length_firstOccur_le _
      _ = glyphIDs.length := List.length_map _ _
  · rw [hd]; simp
  · intro i hi
    have hdg := denseIndices_getD s universeSize glyphIDs hU i hi
    have hgi : glyphIDs.getD i 0 ∈ glyphIDs := by
      rw [List.getD_eq_getElem _ _ hi]; exact List.getElem_mem hi
    have hmem : remapGlyph universeSize (glyphIDs.getD i 0)
        ∈ firstOccur (glyphIDs.map (remapGlyph universeSize)) :=
      (mem_firstOccur _ _).mpr (List.mem_map_of_mem _ hgi)
    constructor
    · rw [hdg, hu]
      exact List.indexOf_lt_length.mpr hmem
    · rw [hdg, hu, getD_indexOf_self hmem, remapGlyph_eq_ite]
  · intro i j hi hj heq
    rw [denseIndices_getD s universeSize glyphIDs hU i hi,
      denseIndices_getD s universeSize glyphIDs hU j hj, heq]

/-- Witness for C1 at the concrete input `U = 3`, ids `[1, 5, 1, 0]` (id 5 is
out of range). -/
theorem uniquifyGlyphIDs_dedup_correct_witness :
    ((SkGlyphIDSet.fresh.uniquifyGlyphIDs 3 [1, 5, 1, 0]).1.uniqueGlyphIDs).Nodup ∧
    (SkGlyphIDSet.fresh.uniquifyGlyphIDs 3 [1, 5, 1, 0]).1.uniqueGlyphIDs.length
        ≤ ([1, 5, 1, 0] : List Nat).length ∧
    (SkGlyphIDSet.fresh.uniquifyGlyphIDs 3 [1, 5, 1, 0]).1.denseIndices.length
        = ([1, 5, 1, 0] : List Nat).length ∧
    (∀ i, i < ([1, 5, 1, 0] : List Nat).length →
      (SkGlyphIDSet.fresh.uniquifyGlyphIDs 3 [1, 5, 1, 0]).1.denseIndices.getD i 0
          < (SkGlyphIDSet.fresh.uniquifyGlyphIDs 3 [1, 5, 1, 0]).1.uniqueGlyphIDs.length ∧
      (SkGlyphIDSet.fresh.uniquifyGlyphIDs 3 [1, 5, 1, 0]).1.uniqueGlyphIDs.getD
          ((SkGlyphIDSet.fresh.uniquifyGlyphIDs 3 [1, 5, 1, 0]).1.denseIndices.getD i 0) 0
        = (if ([1, 5, 1, 0] : List Nat).getD i 0 < 3
           then ([1, 5, 1, 0] : List Nat).getD i 0 else kUndefGlyph)) ∧
    (∀ i j, i < ([1, 5, 1, 0] : List Nat).length → j < ([1, 5, 1, 0] : List Nat).length →
      remapGlyph 3 (([1, 5, 1, 0] : List Nat).getD i 0)
          = remapGlyph 3 (([1, 5, 1, 0] : List Nat).getD j 0) →
      (SkGlyphIDSet.fresh.uniquifyGlyphIDs 3 [1, 5, 1, 0]).1.denseIndices.getD i 0
        = (SkGlyphIDSet.fresh.uniquifyGlyphIDs 3 [1, 5, 1, 0]).1.denseIndices.getD j 0) :=
  uniquifyGlyphIDs_dedup_correct SkGlyphIDSet.fresh 3 [1, 5, 1, 0] (by norm_num)

/-- C10: for every call with `universeSize ≥ 1`, the returned unique-id span
lists the distinct remapped ids in order of their first occurrence in the
input, and each occurrence's dense index is the position of its remapped id
in that first-occurrence list - dense indices are handed out sequentially
from 0 as new ids are encountered. -/
theorem uniquifyGlyphIDs_first_occurrence_order (s : SkGlyphIDSet)
    (universeSize : Nat) (glyphIDs : List Nat) (hU : 1 ≤ universeSize) :
    (s.uniquifyGlyphIDs universeSize glyphIDs).1.uniqueGlyphIDs
        = firstOccur (glyphIDs.map (remapGlyph universeSize)) ∧
    (∀ i, i < glyphIDs.length →
      (s.uniquifyGlyphIDs universeSize glyphIDs).1.denseIndices.getD i 0
        = (firstOccur (glyphIDs.map (remapGlyph universeSize))).indexOf
            (remapGlyph universeSize (glyphIDs.getD i 0))) :=
  ⟨(uniquifyGlyphIDs_eq s universeSize glyphIDs
      (remapGlyph_lt_grownMap s universeSize hU)).1,
   fun i hi => denseIndices_getD s universeSize glyphIDs hU i hi⟩

/-- Witness for C10 at `U = 8`, ids `[7, 2, 7, 9]` (id 9 is out of range):
the unique ids come out in first-occurrence order of the remapped input. -/
theorem uniquifyGlyphIDs_first_occurrence_order_witness :
    (SkGlyphIDSet.fresh.uniquifyGlyphIDs 8 [7, 2, 7, 9]).1.uniqueGlyphIDs
        = firstOccur (([7, 2, 7, 9] : List Nat).map (remapGlyph 8)) ∧
    (∀ i, i < ([7, 2, 7, 9] : List Nat).length →
      (SkGlyphIDSet.fresh.uniquifyGlyphIDs 8 [7, 2, 7, 9]).1.denseIndices.getD i 0
        = (firstOccur (([7, 2, 7, 9] : List Nat).map (remapGlyph 8))).indexOf
            (remapGlyph 8 (([7, 2, 7, 9] : List Nat).getD i 0))) :=
  uniquifyGlyphIDs_first_occurrence_order SkGlyphIDSet.fresh 8 [7, 2, 7, 9]
    (by norm_num)

/-- A call's returned result (unique ids, dense indices, in-boundedness) is
independent of the instance's accumulated state: it always equals the result
a freshly constructed instance would produce.  This is the formal content of
the double-check making stale `fUniverseToUnique` entries harmless. -/
theorem uniquifyGlyphIDs_result_state_independent (s : SkGlyphIDSet) (U : Nat)
    (hU : 1 ≤ U) (gs : List Nat) :
    (s.uniquifyGlyphIDs U gs).1 = (SkGlyphIDSet.fresh.uniquifyGlyphIDs U gs).1 := by
  obtain ⟨hu1, hd1, hb1⟩ :=
    uniquifyGlyphIDs_eq s U gs (remapGlyph_lt_grownMap s U hU)
  obtain ⟨hu2, hd2, hb2⟩ :=
    uniquifyGlyphIDs_eq SkGlyphIDSet.fresh U gs
      (remapGlyph_lt_grownMap SkGlyphIDSet.fresh U hU)
  have hext : ∀ a b : UniquifyResult, a.uniqueGlyphIDs = b.uniqueGlyphIDs →
      a.denseIndices = b.denseIndices → a.inBounds = b.inBounds → a = b := by
    intro a b h1 h2 h3
    cases a; cases b; simp_all
  exact hext _ _ (hu1.trans hu2.symm) (hd1.trans hd2.symm) (hb1.trans hb2.symm)

/-- C2: two sequential `uniquifyGlyphIDs` calls on the same instance (any
universe sizes ≥ 1, any id sequences): the second call's result is identical
to what a freshly constructed `SkGlyphIDSet` would produce for the second
call's inputs - stale `fUniverseToUnique` entries never change the output,
because a candidate dense index is accepted only if it is below the current
call's unique count and the unique-ids buffer at that index holds the same
id. -/
theorem uniquifyGlyphIDs_no_clear_across_calls (s : SkGlyphIDSet)
    (universeSize1 universeSize2 : Nat) (_h1 : 1 ≤ universeSize1)
    (h2 : 1 ≤ universeSize2) (glyphIDs1 glyphIDs2 : List Nat) :
    (((s.uniquifyGlyphIDs universeSize1 glyphIDs1).2).uniquifyGlyphIDs
        universeSize2 glyphIDs2).1
      = (SkGlyphIDSet.fresh.uniquifyGlyphIDs universeSize2 glyphIDs2).1 :=
  uniquifyGlyphIDs_result_state_independent _ universeSize2 h2 glyphIDs2

/-- Witness for C2: call 1 with `U = 2`, ids `[1, 0, 1]` leaves stale map
entries; call 2 with `U = 3`, ids `[2, 2, 0]` still matches the fresh
instance's answer. -/
theorem uniquifyGlyphIDs_no_clear_across_calls_witness :
    (((SkGlyphIDSet.fresh.uniquifyGlyphIDs 2 [1, 0, 1]).2).uniquifyGlyphIDs
        3 [2, 2, 0]).1
      = (SkGlyphIDSet.fresh.uniquifyGlyphIDs 3 [2, 2, 0]).1 :=
  uniquifyGlyphIDs_no_clear_across_calls SkGlyphIDSet.fresh 2 3
    (by norm_num) (by norm_num) [1, 0, 1] [2, 2, 0]

/-- C6: a call with `universeSize > 4096` first grows the backing map to the
requested universe (second conjunct: when the universe exceeds the current
allocation, the grown buffer has exactly `universeSize` entries), and once
the call completes the instance's backing storage has been shrunk back to at
most 4096 entries. -/
theorem uniquifyGlyphIDs_shrink_bound (s : SkGlyphIDSet) (universeSize : Nat)
    (gs : List Nat) (hU : 4096 < universeSize) :
    ((s.uniquifyGlyphIDs universeSize gs).2).universeToUnique.length ≤ 4096 ∧
    (s.universeToUnique.length < universeSize →
      (s.grownMap universeSize).length = universeSize) := by
  have hU1 : 1 ≤ universeSize := by omega
  have hm := remapGlyph_lt_grownMap s universeSize hU1
  have hlen := (uniquifyLoop_spec universeSize (s.grownMap universeSize) hm gs).2.2.1
  have hgl := grownMap_length s universeSize
  have hgt : (uniquifyLoop universeSize (s.grownMap universeSize) gs).map.length
      > 4096 := by omega
  constructor
  · show (if (uniquifyLoop universeSize (s.grownMap universeSize) gs).map.length
          > 4096
        then List.replicate 4096 (0 : Nat)
        else (uniquifyLoop universeSize (s.grownMap universeSize) gs).map).length
      ≤ 4096
    rw [if_pos hgt, List.length_replicate]
  · intro hgrow
    simp [SkGlyphIDSet.grownMap, hgrow]

/-- Witness for C6 at `U = 5000 > 4096`: after the call the backing storage
is back under the ceiling. -/
theorem uniquifyGlyphIDs_shrink_bound_witness :
    ((SkGlyphIDSet.fresh.uniquifyGlyphIDs 5000 [1, 4999]).2).universeToUnique.length
        ≤ 4096 ∧
    (SkGlyphIDSet.fresh.universeToUnique.length < 5000 →
      (SkGlyphIDSet.fresh.grownMap 5000).length = 5000) :=
  uniquifyGlyphIDs_shrink_bound SkGlyphIDSet.fresh 5000 [1, 4999] (by norm_num)

theorem firstOccur_replicate (n a : Nat) :
    firstOccur (List.replicate n a) = if n = 0 then [] else [a] := by
  induction n with
  | zero => simp [firstOccur]
  | succ n ih =>
    rw [List.replicate_succ', firstOccur_concat, ih]
    by_cases hn : n = 0
    · subst hn; simp
    · rw [if_neg hn]
      simp

/-- C8 counterexample: on a freshly constructed `SkGlyphIDSet` (whose
`fUniverseToUnique` allocation is empty), `uniquifyGlyphIDs` with
`universeSize = 0` and the non-empty input `[1]` remaps the id to `0` and
reads `fUniverseToUnique[0]` inside a zero-length allocation - the access is
out of bounds, refuting "every access into the universeToUnique map stays in
bounds". -/
theorem uniquifyGlyphIDs_universe_zero_counterexample :
    (SkGlyphIDSet.fresh.uniquifyGlyphIDs 0 [1]).1.inBounds = false := by decide

/-- C8 amended: `uniquifyGlyphIDs` itself is not safe at `universeSize = 0` -
the zero-universe guard lives in the caller `addDenseAndUnique`.  When the
instance's backing map is non-empty (some earlier call grew it), a
`universeSize = 0` call stays in bounds, but it does not "not deduplicate":
it remaps every id to the undefined glyph `0`, returning the single unique
id `0` and a dense index of `0` for every occurrence.  On a fresh instance
(empty map) the very first access is out of bounds (see the
counterexample). -/
theorem uniquifyGlyphIDs_universe_zero_amended (s : SkGlyphIDSet)
    (gs : List Nat) (hne : gs ≠ []) (hlen : 1 ≤ s.universeToUnique.length) :
    (s.uniquifyGlyphIDs 0 gs).1.inBounds = true ∧
    (s.uniquifyGlyphIDs 0 gs).1.uniqueGlyphIDs = [kUndefGlyph] ∧
    (s.uniquifyGlyphIDs 0 gs).1.denseIndices = List.replicate gs.length 0 := by
  have hgrown : s.grownMap 0 = s.universeToUnique := by
    simp [SkGlyphIDSet.grownMap]
  have hm : ∀ g : Nat, remapGlyph 0 g < (s.grownMap 0).length := by
    intro g
    have hg : remapGlyph 0 g = 0 := by simp [remapGlyph, kUndefGlyph]
    rw [hg, hgrown]
    omega
  obtain ⟨hu, hd, hb⟩ := uniquifyGlyphIDs_eq s 0 gs hm
  have hq : gs.map (remapGlyph 0) = List.replicate gs.length 0 := by
    rw [List.map_congr_left (fun g _ => by simp [remapGlyph, kUndefGlyph] :
      ∀ g ∈ gs, remapGlyph 0 g = (fun _ => (0 : Nat)) g)]
    exact List.map_const' gs 0
  have hn0 : gs.length ≠ 0 := fun h => hne (List.eq_nil_of_length_eq_zero h)
  have hfo : firstOccur (gs.map (remapGlyph 0)) = [0] := by
    rw [hq, firstOccur_replicate, if_neg hn0]
  refine ⟨hb, ?_, ?_⟩
  · rw [hu, hfo]
    rfl
  · rw [hd, hfo, hq, List.map_replicate, List.indexOf_cons_self]

/-- Witness for the amended C8: an instance whose map already has one entry,
`universeSize = 0`, input `[5, 5]`: in bounds, everything collapses to the
undefined glyph. -/
theorem uniquifyGlyphIDs_universe_zero_amended_witness :
    ((SkGlyphIDSet.mk [0]).uniquifyGlyphIDs 0 [5, 5]).1.inBounds = true ∧
    ((SkGlyphIDSet.mk [0]).uniquifyGlyphIDs 0 [5, 5]).1.uniqueGlyphIDs
        = [kUndefGlyph] ∧
    ((SkGlyphIDSet.mk [0]).uniquifyGlyphIDs 0 [5, 5]).1.denseIndices
        = List.replicate ([5, 5] : List Nat).length 0 :=
  uniquifyGlyphIDs_universe_zero_amended ⟨[0]⟩ [5, 5] (by simp) (by simp)

/-- `SkScalar` coordinates are modelled as exact rationals; an `SkPoint` is a
pair. `SkPoint` addition/subtraction is componentwise (the `Prod` instances). -/
abbrev SkPoint := ℚ × ℚ

/-- `SkVector::scale`: multiply both coordinates by a scalar (`SK_ScalarHalf`
is `1/2`). -/
def scalePt (c : ℚ) (p : SkPoint) : SkPoint := (c * p.1, c * p.2)

/-- `SkPaint::TextEncoding`. -/
inductive TextEncoding
  | utf8
  | utf16
  | utf32
  | glyphID
deriving Repr, DecidableEq

/-- `SkPaint::Align` (text alignment). -/
inductive TextAlign
  | left
  | center
  | right
deriving Repr, DecidableEq

/-- The typeface collaborator, reduced to the one query the core makes of it
directly: `countGlyphs()`, the size of its glyph universe. -/
structure Typeface where
  countGlyphs : Nat
deriving Repr, DecidableEq

/-- The slice of `SkPaint` this core reads: the text encoding, the text
alignment, and the typeface (`SkPaintPriv::GetTypefaceOrDefault`). -/
structure SkPaint where
  textEncoding : TextEncoding
  textAlign : TextAlign
  typeface : Typeface
deriving Repr, DecidableEq

/-- `SkGlyphRun`: the immutable view over one shaped run (the spans are
materialized as lists). -/
structure SkGlyphRun where
  runPaint : SkPaint
  uniqueGlyphIDIndices : List Nat
  positions : List SkPoint
  glyphIDs : List Nat
  uniqueGlyphIDs : List Nat
  text : List Char
  clusters : List Nat
deriving DecidableEq

/-- `SkGlyphRunBuilder` state: the buffer high-water mark `fMaxTotalRunSize`
(the capacity of the indices/positions/unique-ids scratch buffers), the
`fScratchGlyphIDs` staging buffer for encoding conversion, the embedded
`fGlyphIDSet`, and the reusable `fScratchGlyphRun` slot (`none` models the
slot after its occupant was destroyed and before a new run was placed).
Buffer contents flow through the functions below as values; the buffers'
written prefixes are exactly the lists those functions pass around. -/
structure SkGlyphRunBuilder where
  maxTotalRunSize : Nat
  scratchGlyphIDs : List Nat
  glyphIDSet : SkGlyphIDSet
  scratchGlyphRun : Option SkGlyphRun
deriving DecidableEq

/-- The text input together with the answers of the external decoding
collaborators (§6): `bytesAsGlyphs` is the byte span reinterpreted as 16-bit
glyph ids (`byteLength / 2` of them) for the glyph-id encoding path;
`unicharCount` is `SkUTFN_CountUnichars(encoding, bytes, byteLength)`; and
`decodedGlyphs` is what `typeface->charsToGlyphs` writes (one glyph per code
point, so its length is `unicharCount` whenever that is positive). -/
structure TextSource where
  bytesAsGlyphs : List Nat
  unicharCount : Int
  decodedGlyphs : List Nat
deriving Repr, DecidableEq

/-- `SkGlyphRunBuilder::textToGlyphIDs` (lines 182-200): the glyph-id
encoding reinterprets the bytes directly; otherwise the text is decoded and
converted through the typeface into the `fScratchGlyphIDs` staging buffer
(which is resized and overwritten only when the code-point count is
positive). -/
def SkGlyphRunBuilder.textToGlyphIDs (b : SkGlyphRunBuilder) (paint : SkPaint)
    (t : TextSource) : List Nat × SkGlyphRunBuilder :=
  if paint.textEncoding ≠ TextEncoding.glyphID then
    if 0 < t.unicharCount then
      (t.decodedGlyphs, { b with scratchGlyphIDs := t.decodedGlyphs })
    else ([], b)
  else (t.bytesAsGlyphs, b)

/-- `SkGlyphRunBuilder::initialize` (lines 168-180), named `initRun` here:
grow the scratch buffers' shared capacity to the new high-water mark if the
requested run is larger, and destroy the slot's current occupant. -/
def SkGlyphRunBuilder.initRun (b : SkGlyphRunBuilder) (totalRunSize : Nat) :
    SkGlyphRunBuilder :=
  let b1 := if totalRunSize > b.maxTotalRunSize
    then { b with maxTotalRunSize := totalRunSize }
    else b
  { b1 with scratchGlyphRun := none }

/-- `SkGlyphRunBuilder::addDenseAndUnique` (lines 202-217): only a non-empty
id sequence with a typeface that reports a positive glyph universe is
deduplicated; otherwise the empty span is returned and the instance is left
untouched. -/
def SkGlyphRunBuilder.addDenseAndUnique (b : SkGlyphRunBuilder) (paint : SkPaint)
    (glyphIDs : List Nat) : UniquifyResult × SkGlyphRunBuilder :=
  if glyphIDs ≠ [] ∧ 0 < paint.typeface.countGlyphs then
    let rs := b.glyphIDSet.uniquifyGlyphIDs paint.typeface.countGlyphs glyphIDs
    (rs.1, { b with glyphIDSet := rs.2 })
  else (⟨[], [], true⟩, b)

/-- `SkGlyphRunBuilder::makeGlyphRun` (lines 219-244): empty runs are
ignored; otherwise the paint is copied with encoding forced to glyph ids and
alignment forced to left, and the slot is rebuilt in place. -/
def SkGlyphRunBuilder.makeGlyphRun (b : SkGlyphRunBuilder) (runPaint : SkPaint)
    (glyphIDs : List Nat) (positions : List SkPoint)
    (uniqueGlyphIDIndices : List Nat) (uniqueGlyphIDs : List Nat)
    (text : List Char) (clusters : List Nat) : SkGlyphRunBuilder :=
  if glyphIDs = [] then b
  else
    let glyphRunPaint : SkPaint :=
      { runPaint with
        textEncoding := TextEncoding.glyphID,
        textAlign := TextAlign.left }
    let run : SkGlyphRun :=
      { runPaint := glyphRunPaint
        uniqueGlyphIDIndices := uniqueGlyphIDIndices
        positions := positions
        glyphIDs := glyphIDs
        uniqueGlyphIDs := uniqueGlyphIDs
        text := text
        clusters := clusters }
    { b with scratchGlyphRun := some run }

/-- The advance-accumulation loop of `drawText` (lines 262-267): for each
occurrence, write the pen position and advance it by the occurrence's
advance, fetched from the per-unique-id advances array through the
occurrence's dense index.  Returns the written positions and
`endOfLastGlyph`. -/
def advanceLayout (advances : List SkPoint) (origin : SkPoint)
    (dense : List Nat) : List SkPoint × SkPoint :=
  dense.foldl
    (fun st d => (st.1 ++ [st.2], st.2 + advances.getD d (0, 0)))
    ([], origin)

/-- Sum of the advances selected by a dense-index list. -/
def advanceSum (advances : List SkPoint) (dense : List Nat) : SkPoint :=
  (dense.map (fun d => advances.getD d (0, 0))).sum

/-- `SkGlyphRunBuilder::drawText` (lines 246-289).  The strike-cache
collaborator is the oracle `cache`; `getAdvances` fills one advance per
unique id, which is `uniqueGlyphIDs.map cache`.  When deduplication produced
nothing (zero glyph universe) the body is skipped entirely and no run is
made. -/
def SkGlyphRunBuilder.drawText (b : SkGlyphRunBuilder) (cache : Nat → SkPoint)
    (paint : SkPaint) (glyphIDs : List Nat) (origin : SkPoint)
    (text : List Char) (clusters : List Nat) : SkGlyphRunBuilder :=
  let rs := b.addDenseAndUnique paint glyphIDs
  if rs.1.uniqueGlyphIDs ≠ [] then
    let advances := rs.1.uniqueGlyphIDs.map cache
    let lay := advanceLayout advances origin rs.1.denseIndices
    let positions :=
      if paint.textAlign ≠ TextAlign.left then
        let len0 := lay.2 - origin
        let len := if paint.textAlign = TextAlign.center
          then scalePt (1/2 : ℚ) len0 else len0
        lay.1.map (fun pt => pt - len)
      else lay.1
    rs.2.makeGlyphRun paint glyphIDs positions rs.1.denseIndices
      rs.1.uniqueGlyphIDs text clusters
  else rs.2

/-- `SkGlyphRunBuilder::drawPosTextH` (lines 291-317): positions are
`(xpos[i], constY)`; the dense indices are computed only under `SK_DEBUG`
(modelled: the debug build, where the set is still mutated) and are not
attached to the run - the run gets empty unique spans. -/
def SkGlyphRunBuilder.drawPosTextH (b : SkGlyphRunBuilder) (paint : SkPaint)
    (glyphIDs : List Nat) (xpos : List ℚ) (constY : ℚ)
    (text : List Char) (clusters : List Nat) : SkGlyphRunBuilder :=
  let b1 := (b.addDenseAndUnique paint glyphIDs).2
  let positions := (xpos.take glyphIDs.length).map (fun x => (x, constY))
  b1.makeGlyphRun paint glyphIDs positions [] [] text clusters

/-- `SkGlyphRunBuilder::drawPosText` (lines 319-340): positions are taken
verbatim from the caller's array (its first `runSize` entries); same
deduplication-without-attachment as `drawPosTextH`. -/
def SkGlyphRunBuilder.drawPosText (b : SkGlyphRunBuilder) (paint : SkPaint)
    (glyphIDs : List Nat) (pos : List SkPoint)
    (text : List Char) (clusters : List Nat) : SkGlyphRunBuilder :=
  let b1 := (b.addDenseAndUnique paint glyphIDs).2
  b1.makeGlyphRun paint glyphIDs (pos.take glyphIDs.length) [] [] text clusters

/-- `SkGlyphRunBuilder::prepareDrawText` (lines 135-142). -/
def SkGlyphRunBuilder.prepareDrawText (b : SkGlyphRunBuilder)
    (cache : Nat → SkPoint) (paint : SkPaint) (t : TextSource)
    (origin : SkPoint) : SkGlyphRunBuilder :=
  let gb := b.textToGlyphIDs paint t
  if gb.1 ≠ [] then
    (gb.2.initRun gb.1.length).drawText cache paint gb.1 origin [] []
  else gb.2

/-- `SkGlyphRunBuilder::prepareDrawPosTextH` (lines 144-153). -/
def SkGlyphRunBuilder.prepareDrawPosTextH (b : SkGlyphRunBuilder)
    (paint : SkPaint) (t : TextSource) (xpos : List ℚ) (constY : ℚ) :
    SkGlyphRunBuilder :=
  let gb := b.textToGlyphIDs paint t
  if gb.1 ≠ [] then
    (gb.2.initRun gb.1.length).drawPosTextH paint gb.1 xpos constY [] []
  else gb.2

/-- `SkGlyphRunBuilder::prepareDrawPosText` (lines 155-162). -/
def SkGlyphRunBuilder.prepareDrawPosText (b : SkGlyphRunBuilder)
    (paint : SkPaint) (t : TextSource) (pos : List SkPoint) :
    SkGlyphRunBuilder :=
  let gb := b.textToGlyphIDs paint t
  if gb.1 ≠ [] then
    (gb.2.initRun gb.1.length).drawPosText paint gb.1 pos [] []
  else gb.2

/-- `SkGlyphRunBuilder::useGlyphRun` (lines 164-166): the current-run
accessor (the slot's occupant, `none` when the occupant was destroyed and
nothing was rebuilt). -/
def SkGlyphRunBuilder.useGlyphRun (b : SkGlyphRunBuilder) : Option SkGlyphRun :=
  b.scratchGlyphRun

theorem advanceSum_concat (adv : List SkPoint) (ds : List Nat) (d : Nat) :
    advanceSum adv (ds ++ [d]) = advanceSum adv ds + adv.getD d (0, 0) := by
  simp [advanceSum]

/-- The final pen position of the layout loop is the origin plus the sum of
all selected advances. -/
theorem advanceLayout_snd (adv : List SkPoint) (origin : SkPoint)
    (dense : List Nat) :
    (advanceLayout adv origin dense).2 = origin + advanceSum adv dense := by
  induction dense using List.reverseRecOn with
  | nil => simp [advanceLayout, advanceSum]
  | append_singleton ds d ih =>
    have hstep : advanceLayout adv origin (ds ++ [d])
        = ((advanceLayout adv origin ds).1 ++ [(advanceLayout adv origin ds).2],
           (advanceLayout adv origin ds).2 + adv.getD d (0, 0)) := by
      simp [advanceLayout, List.foldl_append]
    rw [hstep]
    show (advanceLayout adv origin ds).2 + adv.getD d (0, 0)
        = origin + advanceSum adv (ds ++ [d])
    rw [ih, advanceSum_concat, add_assoc]

/-- The positions the layout loop writes: position `i` is the origin plus
the advances selected by the first `i` dense indices. -/
theorem advanceLayout_fst (adv : List SkPoint) (origin : SkPoint)
    (dense : List Nat) :
    (advanceLayout adv origin dense).1
      = (List.range dense.length).map
          (fun i => origin + advanceSum adv (dense.take i)) := by
  induction dense using List.reverseRecOn with
  | nil => simp [advanceLayout]
  | append_singleton ds d ih =>
    have hstep : advanceLayout adv origin (ds ++ [d])
        = ((advanceLayout adv origin ds).1 ++ [(advanceLayout adv origin ds).2],
           (advanceLayout adv origin ds).2 + adv.getD d (0, 0)) := by
      simp [advanceLayout, List.foldl_append]
    rw [hstep]
    show (advanceLayout adv origin ds).1 ++ [(advanceLayout adv origin ds).2]
        = (List.range (ds ++ [d]).length).map
            (fun i => origin + advanceSum adv ((ds ++ [d]).take i))
    rw [ih, advanceLayout_snd]
    have hlen : (ds ++ [d]).length = ds.length + 1 := by simp
    rw [hlen, List.range_succ, List.map_append]
    congr 1
    · refine List.map_congr_left ?_
      intro i hi
      rw [List.mem_range] at hi
      rw [List.take_append_of_le_length (le_of_lt hi)]
    · simp only [List.map_cons, List.map_nil]
      rw [List.take_left ds [d]]

theorem firstOccur_ne_nil {l : List Nat} (h : l ≠ []) : firstOccur l ≠ [] := by
  intro hfo
  obtain ⟨a, ha⟩ := List.exists_mem_of_ne_nil l h
  have hmem := (mem_firstOccur l a).mpr ha
  rw [hfo] at hmem
  exact List.not_mem_nil a hmem

/-- On the glyph-id encoding path, `prepareDrawText` reinterprets the bytes
and goes straight to `initialize` + `drawText`. -/
theorem prepareDrawText_glyphID_encoding (b : SkGlyphRunBuilder)
    (cache : Nat → SkPoint) (paint : SkPaint) (t : TextSource)
    (origin : SkPoint) (henc : paint.textEncoding = TextEncoding.glyphID)
    (hne : t.bytesAsGlyphs ≠ []) :
    b.prepareDrawText cache paint t origin
      = (b.initRun t.bytesAsGlyphs.length).drawText cache paint
          t.bytesAsGlyphs origin [] [] := by
  simp [SkGlyphRunBuilder.prepareDrawText, SkGlyphRunBuilder.textToGlyphIDs,
    henc, hne]

/-- The run `drawPosTextH` places in the slot: explicit positions, empty
unique-id data. -/
theorem drawPosTextH_run (b : SkGlyphRunBuilder) (paint : SkPaint)
    (glyphIDs : List Nat) (xpos : List ℚ) (constY : ℚ)
    (text : List Char) (clusters : List Nat) (hne : glyphIDs ≠ []) :
    (b.drawPosTextH paint glyphIDs xpos constY text clusters).useGlyphRun
      = some { runPaint := { paint with
                 textEncoding := TextEncoding.glyphID,
                 textAlign := TextAlign.left }
               uniqueGlyphIDIndices := []
               positions := (xpos.take glyphIDs.length).map (fun x => (x, constY))
               glyphIDs := glyphIDs
               uniqueGlyphIDs := []
               text := text
               clusters := clusters } := by
  simp [SkGlyphRunBuilder.drawPosTextH, SkGlyphRunBuilder.makeGlyphRun,
    SkGlyphRunBuilder.useGlyphRun, hne]

/-- The run `drawPosText` places in the slot: verbatim positions, empty
unique-id data. -/
theorem drawPosText_run (b : SkGlyphRunBuilder) (paint : SkPaint)
    (glyphIDs : List Nat) (pos : List SkPoint)
    (text : List Char) (clusters : List Nat) (hne : glyphIDs ≠ []) :
    (b.drawPosText paint glyphIDs pos text clusters).useGlyphRun
      = some { runPaint := { paint with
                 textEncoding := TextEncoding.glyphID,
                 textAlign := TextAlign.left }
               uniqueGlyphIDIndices := []
               positions := pos.take glyphIDs.length
               glyphIDs := glyphIDs
               uniqueGlyphIDs := []
               text := text
               clusters := clusters } := by
  simp [SkGlyphRunBuilder.drawPosText, SkGlyphRunBuilder.makeGlyphRun,
    SkGlyphRunBuilder.useGlyphRun, hne]

/-- C7: when the input text decodes to zero code points (more generally,
whenever the resolved glyph-id sequence is empty), `prepareDrawText` leaves
the builder completely unchanged: no scratch buffer grows (`initialize` is
never reached), the current-run slot is untouched so `useGlyphRun` holds no
new run, and no error is signalled.  The hypothesis `hdec` is the
typeface-collaborator contract: `charsToGlyphs` writes exactly one glyph per
decoded code point. -/
theorem prepareDrawText_empty_text_no_run_no_growth (b : SkGlyphRunBuilder)
    (cache : Nat → SkPoint) (paint : SkPaint) (t : TextSource)
    (origin : SkPoint)
    (hdec : t.decodedGlyphs.length = t.unicharCount.toNat)
    (hempty : (b.textToGlyphIDs paint t).1 = []) :
    b.prepareDrawText cache paint t origin = b := by
  unfold SkGlyphRunBuilder.prepareDrawText
  unfold SkGlyphRunBuilder.textToGlyphIDs at hempty ⊢
  by_cases henc : paint.textEncoding ≠ TextEncoding.glyphID
  · rw [if_pos henc] at hempty ⊢
    by_cases hcnt : 0 < t.unicharCount
    · rw [if_pos hcnt] at hempty ⊢
      exfalso
      have h0 : t.decodedGlyphs = [] := hempty
      rw [h0] at hdec
      simp at hdec
      omega
    · rw [if_neg hcnt] at hempty ⊢
      simp
  · rw [if_neg henc] at hempty ⊢
    have h0 : t.bytesAsGlyphs = [] := hempty
    simp [h0]

/-- Witness for C7: a builder already holding a run, UTF-8 text that decodes
to zero code points - the builder (buffers, dedup state, slot) is returned
unchanged. -/
theorem prepareDrawText_empty_text_witness :
    (SkGlyphRunBuilder.mk 4 [3] ⟨[0, 0]⟩ none).prepareDrawText
        (fun _ => (0, 0)) ⟨TextEncoding.utf8, TextAlign.center, ⟨9⟩⟩
        ⟨[], 0, []⟩ (1, 2)
      = SkGlyphRunBuilder.mk 4 [3] ⟨[0, 0]⟩ none :=
  prepareDrawText_empty_text_no_run_no_growth _ _ _ _ _ (by decide) (by decide)

/-- C3 counterexample: the builder starts with an old run in its slot; the
text resolves to the non-empty id sequence `[1, 2]` but the typeface reports
a glyph universe of 0.  `prepareDrawText` destroys the old occupant and then
skips `makeGlyphRun` (because `addDenseAndUnique` returned the empty span),
so NO GlyphRun is produced - refuting "a GlyphRun is still produced". -/
theorem drawText_zero_universe_counterexample :
    ((SkGlyphRunBuilder.mk 4 []
        ⟨[]⟩ (some ⟨⟨TextEncoding.glyphID, TextAlign.left, ⟨7⟩⟩,
          [], [], [9], [], [], []⟩)).prepareDrawText
        (fun _ => (0, 0)) ⟨TextEncoding.glyphID, TextAlign.left, ⟨0⟩⟩
        ⟨[1, 2], 0, []⟩ (0, 0)).useGlyphRun = none := by decide

/-- C3 amended: with a non-empty glyph sequence and a typeface reporting a
zero glyph universe, deduplication is skipped; but the run's fate depends on
the mode: `prepareDrawText` (auto-advance mode) produces NO GlyphRun at all
(its guard `!uniqueGlyphIDs.empty()` fails, so the slot stays empty after
its old occupant was destroyed), while the explicitly positioned modes still
produce a run without unique-id acceleration (empty unique-id data). -/
theorem zero_universe_dedup_skipped (b : SkGlyphRunBuilder)
    (cache : Nat → SkPoint) (paint : SkPaint) (t : TextSource)
    (origin : SkPoint) (xpos : List ℚ) (constY : ℚ)
    (henc : paint.textEncoding = TextEncoding.glyphID)
    (hne : t.bytesAsGlyphs ≠ [])
    (hzero : paint.typeface.countGlyphs = 0) :
    (b.prepareDrawText cache paint t origin).useGlyphRun = none ∧
    (∃ run, (b.prepareDrawPosTextH paint t xpos constY).useGlyphRun = some run ∧
      run.uniqueGlyphIDs = [] ∧ run.uniqueGlyphIDIndices = []) := by
  constructor
  · rw [prepareDrawText_glyphID_encoding b cache paint t origin henc hne]
    simp [SkGlyphRunBuilder.drawText, SkGlyphRunBuilder.addDenseAndUnique,
      SkGlyphRunBuilder.initRun, SkGlyphRunBuilder.useGlyphRun, hzero]
  · have hprep : b.prepareDrawPosTextH paint t xpos constY
        = (b.initRun t.bytesAsGlyphs.length).drawPosTextH paint
            t.bytesAsGlyphs xpos constY [] [] := by
      simp [SkGlyphRunBuilder.prepareDrawPosTextH,
        SkGlyphRunBuilder.textToGlyphIDs, henc, hne]
    rw [hprep, drawPosTextH_run _ paint t.bytesAsGlyphs xpos constY [] [] hne]
    exact ⟨_, rfl, rfl, rfl⟩

/-- Witness for the amended C3: ids `[1, 2]`, universe 0 - no run in
auto-advance mode, a run with empty unique-id data in positioned mode. -/
theorem zero_universe_dedup_skipped_witness :
    ((SkGlyphRunBuilder.mk 0 [] ⟨[]⟩ none).prepareDrawText (fun _ => (0, 0))
        ⟨TextEncoding.glyphID, TextAlign.left, ⟨0⟩⟩
        ⟨[1, 2], 0, []⟩ (0, 0)).useGlyphRun = none ∧
    (∃ run, ((SkGlyphRunBuilder.mk 0 [] ⟨[]⟩ none).prepareDrawPosTextH
        ⟨TextEncoding.glyphID, TextAlign.left, ⟨0⟩⟩
        ⟨[1, 2], 0, []⟩ [3, 4] 7).useGlyphRun = some run ∧
      run.uniqueGlyphIDs = [] ∧ run.uniqueGlyphIDIndices = []) :=
  zero_universe_dedup_skipped _ _ _ _ _ _ _ (by decide) (by decide) (by decide)

/-- C9: in both explicitly positioned modes the produced GlyphRun carries the
supplied positions verbatim - `(xpos[i], constY)` per occurrence in the
horizontal mode, the supplied 2D points in the positioned mode - and its
unique-id spans are empty: the (debug-only) deduplication result is not
attached to the run. -/
theorem drawPos_modes_positions_verbatim (b : SkGlyphRunBuilder)
    (paint : SkPaint) (glyphIDs : List Nat) (xpos : List ℚ) (constY : ℚ)
    (pos : List SkPoint) (hne : glyphIDs ≠ []) :
    (∃ run, (b.drawPosTextH paint glyphIDs xpos constY [] []).useGlyphRun
          = some run ∧
      run.positions = (xpos.take glyphIDs.length).map (fun x => (x, constY)) ∧
      run.uniqueGlyphIDs = [] ∧ run.uniqueGlyphIDIndices = []) ∧
    (∃ run, (b.drawPosText paint glyphIDs pos [] []).useGlyphRun = some run ∧
      run.positions = pos.take glyphIDs.length ∧
      run.uniqueGlyphIDs = [] ∧ run.uniqueGlyphIDIndices = []) := by
  constructor
  · rw [drawPosTextH_run b paint glyphIDs xpos constY [] [] hne]
    exact ⟨_, rfl, rfl, rfl, rfl⟩
  · rw [drawPosText_run b paint glyphIDs pos [] [] hne]
    exact ⟨_, rfl, rfl, rfl, rfl⟩

/-- Witness for C9 at ids `[1, 2]`, x-positions `[3, 4, 9]` with `y = 7`,
and 2D points `[(1, 2), (3, 4)]`. -/
theorem drawPos_modes_positions_verbatim_witness :
    (∃ run, ((SkGlyphRunBuilder.mk 0 [] ⟨[]⟩ none).drawPosTextH
          ⟨TextEncoding.glyphID, TextAlign.left, ⟨5⟩⟩ [1, 2] [3, 4, 9] 7
          [] []).useGlyphRun = some run ∧
      run.positions = (([3, 4, 9] : List ℚ).take ([1, 2] : List Nat).length).map
          (fun x => (x, (7 : ℚ))) ∧
      run.uniqueGlyphIDs = [] ∧ run.uniqueGlyphIDIndices = []) ∧
    (∃ run, ((SkGlyphRunBuilder.mk 0 [] ⟨[]⟩ none).drawPosText
          ⟨TextEncoding.glyphID, TextAlign.left, ⟨5⟩⟩ [1, 2]
          [(1, 2), (3, 4)] [] []).useGlyphRun = some run ∧
      run.positions = ([((1 : ℚ), (2 : ℚ)), (3, 4)] : List SkPoint).take
          ([1, 2] : List Nat).length ∧
      run.uniqueGlyphIDs = [] ∧ run.uniqueGlyphIDIndices = []) :=
  drawPos_modes_positions_verbatim _ _ [1, 2] [3, 4, 9] 7 [(1, 2), (3, 4)]
    (by decide)

/-- The run `drawText` constructs, written out: the dedup result of the
builder's set, advances fetched once per unique id from the cache, layout by
advance accumulation, and the post-loop alignment translation. -/
def drawTextRunSpec (b : SkGlyphRunBuilder) (cache : Nat → SkPoint)
    (paint : SkPaint) (glyphIDs : List Nat) (origin : SkPoint)
    (text : List Char) (clusters : List Nat) : SkGlyphRun :=
  let rs := b.glyphIDSet.uniquifyGlyphIDs paint.typeface.countGlyphs glyphIDs
  let advances := rs.1.uniqueGlyphIDs.map cache
  let lay := advanceLayout advances origin rs.1.denseIndices
  let positions :=
    if paint.textAlign ≠ TextAlign.left then
      let len0 := lay.2 - origin
      let len := if paint.textAlign = TextAlign.center
        then scalePt (1/2 : ℚ) len0 else len0
      lay.1.map (fun pt => pt - len)
    else lay.1
  { runPaint := { paint with
      textEncoding := TextEncoding.glyphID,
      textAlign := TextAlign.left }
    uniqueGlyphIDIndices := rs.1.denseIndices
    positions := positions
    glyphIDs := glyphIDs
    uniqueGlyphIDs := rs.1.uniqueGlyphIDs
    text := text
    clusters := clusters }

/-- With a non-empty glyph sequence and a positive glyph universe,
`drawText` places exactly `drawTextRunSpec` in the slot. -/
theorem drawText_run (b : SkGlyphRunBuilder) (cache : Nat → SkPoint)
    (paint : SkPaint) (glyphIDs : List Nat) (origin : SkPoint)
    (text : List Char) (clusters : List Nat)
    (hne : glyphIDs ≠ []) (hU : 1 ≤ paint.typeface.countGlyphs) :
    (b.drawText cache paint glyphIDs origin text clusters).useGlyphRun
      = some (drawTextRunSpec b cache paint glyphIDs origin text clusters) := by
  have hmapne : glyphIDs.map (remapGlyph paint.typeface.countGlyphs) ≠ [] := by
    simpa using hne
  have huniq : (b.glyphIDSet.uniquifyGlyphIDs paint.typeface.countGlyphs
      glyphIDs).1.uniqueGlyphIDs ≠ [] := by
    rw [(uniquifyGlyphIDs_eq b.glyphIDSet paint.typeface.countGlyphs glyphIDs
      (remapGlyph_lt_grownMap b.glyphIDSet paint.typeface.countGlyphs hU)).1]
    exact firstOccur_ne_nil hmapne
  have hadd : b.addDenseAndUnique paint glyphIDs
      = ((b.glyphIDSet.uniquifyGlyphIDs paint.typeface.countGlyphs glyphIDs).1,
         { b with glyphIDSet := (b.glyphIDSet.uniquifyGlyphIDs
             paint.typeface.countGlyphs glyphIDs).2 }) := by
    simp only [SkGlyphRunBuilder.addDenseAndUnique]
    rw [if_pos]
    exact ⟨hne, hU⟩
  simp only [SkGlyphRunBuilder.drawText, hadd, SkGlyphRunBuilder.makeGlyphRun,
    SkGlyphRunBuilder.useGlyphRun, drawTextRunSpec]
  rw [if_pos huniq, if_neg hne]

theorem getD_range_map (f : Nat → SkPoint) (n i : Nat) (hi : i < n) :
    ((List.range n).map f).getD i (0, 0) = f i := by
  have h1 : i < ((List.range n).map f).length := by simpa
  rw [List.getD_eq_getElem _ _ h1, List.getElem_map, List.getElem_range]

theorem advances_getD_indexOf (cache : Nat → SkPoint) (F : List Nat) (g : Nat)
    (h : g ∈ F) :
    (F.map cache).getD (F.indexOf g) (0, 0) = cache g := by
  have hlt : F.indexOf g < F.length := List.indexOf_lt_length.mpr h
  have hlt2 : F.indexOf g < (F.map cache).length := by simpa
  rw [List.getD_eq_getElem _ _ hlt2, List.getElem_map, List.getElem_indexOf hlt]

/-- The advances selected by the first `i` dense indices are exactly the
per-occurrence advances of the first `i` (remapped) input glyphs. -/
theorem advanceSum_dense_take (cache : Nat → SkPoint) (U : Nat)
    (gs : List Nat) (hU : 1 ≤ U) (s : SkGlyphIDSet) (i : Nat) :
    advanceSum ((s.uniquifyGlyphIDs U gs).1.uniqueGlyphIDs.map cache)
        ((s.uniquifyGlyphIDs U gs).1.denseIndices.take i)
      = ((gs.take i).map (fun g => cache (remapGlyph U g))).sum := by
  obtain ⟨hu, hd, -⟩ :=
    uniquifyGlyphIDs_eq s U gs (remapGlyph_lt_grownMap s U hU)
  rw [hu, hd, ← List.map_take, advanceSum, List.map_map]
  have hpt : ∀ g ∈ (gs.map (remapGlyph U)).take i,
      ((fun d => ((firstOccur (gs.map (remapGlyph U))).map cache).getD d (0, 0))
        ∘ fun g => (firstOccur (gs.map (remapGlyph U))).indexOf g) g
      = cache g := by
    intro g hg
    exact advances_getD_indexOf cache _ g
      ((mem_firstOccur _ g).mpr (List.take_subset i _ hg))
  rw [List.map_congr_left hpt, ← List.map_take, List.map_map]
  rfl

/-- C4: in auto-advance layout (`prepareDrawText`) with left alignment, the
i-th produced position is the origin plus the sum of the advances of the
first i occurrences, where each occurrence's advance is read from the
per-unique-id advances array (one cache fetch per unique id:
`uniqueGlyphIDs.map cache`) through its dense index; equivalently it is the
sum of the per-glyph advances of glyphs `0..i-1`. -/
theorem drawText_advance_layout (b : SkGlyphRunBuilder) (cache : Nat → SkPoint)
    (paint : SkPaint) (t : TextSource) (origin : SkPoint)
    (henc : paint.textEncoding = TextEncoding.glyphID)
    (halign : paint.textAlign = TextAlign.left)
    (hne : t.bytesAsGlyphs ≠ [])
    (hU : 1 ≤ paint.typeface.countGlyphs) :
    ∃ run, (b.prepareDrawText cache paint t origin).useGlyphRun = some run ∧
      run.glyphIDs = t.bytesAsGlyphs ∧
      run.positions.length = t.bytesAsGlyphs.length ∧
      (∀ i, i < t.bytesAsGlyphs.length →
        run.positions.getD i (0, 0)
          = origin + advanceSum (run.uniqueGlyphIDs.map cache)
              (run.uniqueGlyphIDIndices.take i)) ∧
      (∀ i, i < t.bytesAsGlyphs.length →
        run.positions.getD i (0, 0)
          = origin + ((t.bytesAsGlyphs.take i).map
              (fun g => cache (remapGlyph paint.typeface.countGlyphs g))).sum) := by
  rw [prepareDrawText_glyphID_encoding b cache paint t origin henc hne,
    drawText_run _ cache paint t.bytesAsGlyphs origin [] [] hne hU]
  obtain ⟨hu, hd, -⟩ := uniquifyGlyphIDs_eq
    (b.initRun t.bytesAsGlyphs.length).glyphIDSet paint.typeface.countGlyphs
    t.bytesAsGlyphs
    (remapGlyph_lt_grownMap _ paint.typeface.countGlyphs hU)
  set B := b.initRun t.bytesAsGlyphs.length with hB
  set gs := t.bytesAsGlyphs with hgs
  set U := paint.typeface.countGlyphs with hUdef
  set rs := B.glyphIDSet.uniquifyGlyphIDs U gs with hrs
  have hposif : (drawTextRunSpec B cache paint gs origin [] []).positions
      = (advanceLayout (rs.1.uniqueGlyphIDs.map cache) origin
          rs.1.denseIndices).1 := by
    simp only [drawTextRunSpec]
    rw [if_neg]
    intro hcon
    exact hcon halign
  have hdlen : rs.1.denseIndices.length = gs.length := by
    rw [hd]; simp
  have hsum := advanceSum_dense_take cache U gs hU B.glyphIDSet
  rw [← hrs] at hsum
  refine ⟨_, rfl, rfl, ?_, ?_, ?_⟩
  · rw [hposif, advanceLayout_fst]
    simp [hdlen]
  · intro i hi
    have hi' : i < rs.1.denseIndices.length := by omega
    rw [hposif, advanceLayout_fst, getD_range_map _ _ i hi']
    rfl
  · intro i hi
    have hi' : i < rs.1.denseIndices.length := by omega
    rw [hposif, advanceLayout_fst, getD_range_map _ _ i hi', hsum i]

/-- Witness for C4 at the spec's example shape: ids `[1, 2, 1]`, advances
`(1,0)` and `(2,0)` for the two unique ids, origin `(0,0)` - the example of
§8 instantiated. -/
theorem drawText_advance_layout_witness :
    ∃ run, ((SkGlyphRunBuilder.mk 0 [] ⟨[]⟩ none).prepareDrawText
        (fun g => ((g : ℚ), 0)) ⟨TextEncoding.glyphID, TextAlign.left, ⟨5⟩⟩
        ⟨[1, 2, 1], 0, []⟩ (0, 0)).useGlyphRun = some run ∧
      run.glyphIDs = ([1, 2, 1] : List Nat) ∧
      run.positions.length = ([1, 2, 1] : List Nat).length ∧
      (∀ i, i < ([1, 2, 1] : List Nat).length →
        run.positions.getD i (0, 0)
          = (0, 0) + advanceSum
              (run.uniqueGlyphIDs.map (fun g : Nat => ((g : ℚ), 0)))
              (run.uniqueGlyphIDIndices.take i)) ∧
      (∀ i, i < ([1, 2, 1] : List Nat).length →
        run.positions.getD i (0, 0)
          = (0, 0) + ((([1, 2, 1] : List Nat).take i).map
              (fun g : Nat =>
                (fun g : Nat => ((g : ℚ), 0)) (remapGlyph 5 g))).sum) :=
  drawText_advance_layout (SkGlyphRunBuilder.mk 0 [] ⟨[]⟩ none)
    (fun g => ((g : ℚ), 0)) ⟨TextEncoding.glyphID, TextAlign.left, ⟨5⟩⟩
    ⟨[1, 2, 1], 0, []⟩ (0, 0) (by decide) (by decide) (by decide) (by decide)

/-- C5: for the same `prepareDrawText` input, changing only the alignment
translates every position rigidly relative to the left-aligned result: by
minus half the total advance under center alignment and by minus the total
advance under right alignment (left applies no translation - it is the
baseline). -/
theorem drawText_alignment_translation (b : SkGlyphRunBuilder)
    (cache : Nat → SkPoint) (paint : SkPaint) (t : TextSource)
    (origin : SkPoint)
    (henc : paint.textEncoding = TextEncoding.glyphID)
    (hne : t.bytesAsGlyphs ≠ [])
    (hU : 1 ≤ paint.typeface.countGlyphs) :
    ∃ runL runC runR,
      (b.prepareDrawText cache { paint with textAlign := TextAlign.left } t
          origin).useGlyphRun = some runL ∧
      (b.prepareDrawText cache { paint with textAlign := TextAlign.center } t
          origin).useGlyphRun = some runC ∧
      (b.prepareDrawText cache { paint with textAlign := TextAlign.right } t
          origin).useGlyphRun = some runR ∧
      runC.positions = runL.positions.map (fun pt => pt - scalePt (1/2 : ℚ)
          (advanceSum (runL.uniqueGlyphIDs.map cache)
            runL.uniqueGlyphIDIndices)) ∧
      runR.positions = runL.positions.map (fun pt => pt -
          advanceSum (runL.uniqueGlyphIDs.map cache)
            runL.uniqueGlyphIDIndices) := by
  rw [prepareDrawText_glyphID_encoding b cache
      { paint with textAlign := TextAlign.left } t origin henc hne,
    prepareDrawText_glyphID_encoding b cache
      { paint with textAlign := TextAlign.center } t origin henc hne,
    prepareDrawText_glyphID_encoding b cache
      { paint with textAlign := TextAlign.right } t origin henc hne,
    drawText_run (b.initRun t.bytesAsGlyphs.length) cache
      { paint with textAlign := TextAlign.left } t.bytesAsGlyphs origin [] []
      hne hU,
    drawText_run (b.initRun t.bytesAsGlyphs.length) cache
      { paint with textAlign := TextAlign.center } t.bytesAsGlyphs origin [] []
      hne hU,
    drawText_run (b.initRun t.bytesAsGlyphs.length) cache
      { paint with textAlign := TextAlign.right } t.bytesAsGlyphs origin [] []
      hne hU]
  refine ⟨_, _, _, rfl, rfl, rfl, ?_, ?_⟩
  · simp only [drawTextRunSpec]
    rw [if_pos (show TextAlign.center ≠ TextAlign.left by decide),
      if_neg (show ¬(TextAlign.left ≠ TextAlign.left) by decide)]
    refine List.map_congr_left ?_
    intro pt _
    rw [if_pos True.intro, advanceLayout_snd, add_sub_cancel_left]
  · simp only [drawTextRunSpec]
    rw [if_pos (show TextAlign.right ≠ TextAlign.left by decide),
      if_neg (show ¬(TextAlign.left ≠ TextAlign.left) by decide)]
    refine List.map_congr_left ?_
    intro pt _
    rw [if_neg (show ¬(TextAlign.right = TextAlign.center) by decide),
      advanceLayout_snd, add_sub_cancel_left]

/-- Witness for C5 at ids `[1, 2, 1]`, advances `(1,0)`/`(2,0)`, origin
`(0,0)`: center positions are the left ones shifted by half the total
advance, right positions by the whole of it. -/
theorem drawText_alignment_translation_witness :
    ∃ runL runC runR,
      ((SkGlyphRunBuilder.mk 0 [] ⟨[]⟩ none).prepareDrawText
          (fun g : Nat => ((g : ℚ), 0))
          ⟨TextEncoding.glyphID, TextAlign.left, ⟨5⟩⟩
          ⟨[1, 2, 1], 0, []⟩ (0, 0)).useGlyphRun = some runL ∧
      ((SkGlyphRunBuilder.mk 0 [] ⟨[]⟩ none).prepareDrawText
          (fun g : Nat => ((g : ℚ), 0))
          ⟨TextEncoding.glyphID, TextAlign.center, ⟨5⟩⟩
          ⟨[1, 2, 1], 0, []⟩ (0, 0)).useGlyphRun = some runC ∧
      ((SkGlyphRunBuilder.mk 0 [] ⟨[]⟩ none).prepareDrawText
          (fun g : Nat => ((g : ℚ), 0))
          ⟨TextEncoding.glyphID, TextAlign.right, ⟨5⟩⟩
          ⟨[1, 2, 1], 0, []⟩ (0, 0)).useGlyphRun = some runR ∧
      runC.positions = runL.positions.map (fun pt => pt - scalePt (1/2 : ℚ)
          (advanceSum (runL.uniqueGlyphIDs.map (fun g : Nat => ((g : ℚ), 0)))
            runL.uniqueGlyphIDIndices)) ∧
      runR.positions = runL.positions.map (fun pt => pt -
          advanceSum (runL.uniqueGlyphIDs.map (fun g : Nat => ((g : ℚ), 0)))
            runL.uniqueGlyphIDIndices) :=
  drawText_alignment_translation (SkGlyphRunBuilder.mk 0 [] ⟨[]⟩ none)
    (fun g : Nat => ((g : ℚ), 0)) ⟨TextEncoding.glyphID, TextAlign.left, ⟨5⟩⟩
    ⟨[1, 2, 1], 0, []⟩ (0, 0) (by decide) (by decide) (by decide)
